import Mathlib

/-!
Verification of the BSC→Greenfield oracle-channel relay pipeline.

Shallow embedding of:
- `assembler/bsc_assembler.go` (`BSCAssembler.process`, `BSCAssembler.processPkgs`),
- `db/dao/greenfield_dao.go` (`GetLatestSequenceByChannelIdAndStatus`),
- `executor/greenfield_executor.go` (`QueryCachedLatestValidators`,
  `UpdateCachedLatestValidatorsLoop`).

One pass of the assembler loop is modelled as a pure function over an
environment `Env` that fixes the results of every external call made during
the pass (chain RPCs, database reads and writes, vote aggregation, claim
broadcast) and an in-memory `AssemblerState` (the relayer cursor and the
alert set).  Side effects that matter to the claims (claim submissions and
database updates) are recorded as an event trace.
-/

/-- Package / transaction status lifecycle (`db` package constants). -/
inductive TxStatus where
  | Saved
  | AllVoted
  | Delivered
deriving DecidableEq

/-- A row of the `bsc_relay_package` table (fields used by the assembler). -/
structure BscRelayPackage where
  id : Int
  height : Int
  txTime : Int
  status : TxStatus
deriving DecidableEq

/-- A vote row (field used by the assembler: the claim payload). -/
structure Vote where
  claimPayload : List Nat
deriving DecidableEq

/-- A cached Tendermint validator (opaque to the assembler). -/
structure Validator where
  blsKey : List Nat
deriving DecidableEq

/-- The in-turn relayer descriptor returned by the oracle query
(`QueryInturnRelayerResponse`): BLS pubkey bytes and relay interval. -/
structure InturnRelayer where
  blsPubKey : List Nat
  intervalStart : Int
  intervalEnd : Int
deriving DecidableEq

/-- Errors arising in `BSCAssembler.process`: the clock-skew error, the
insufficient-votes error for a sequence, an index-out-of-range panic on an
empty vote list, and opaque errors propagated from external calls. -/
inductive Err where
  | clockSkew
  | insufficientVotes (seq : Nat)
  | emptyVotes
  | external (msg : String)
deriving DecidableEq

/-- `types.SequenceStatus`: the in-turn relayer sequence cursor. -/
structure SequenceStatus where
  hasRetrieved : Bool
  nextDeliverySeq : Nat
deriving DecidableEq

/-- The mutable fields of `BSCAssembler` touched by one pass. -/
structure AssemblerState where
  inturnRelayerSequenceStatus : SequenceStatus
  relayerNonce : Nat
  alertSet : List Nat
deriving DecidableEq

/-- `config.RelayConfig` fields consumed by the pass. -/
structure RelayConfig where
  greenfieldSequenceUpdateLatency : Int
  bscToGreenfieldInturnRelayerTimeout : Int
deriving DecidableEq

/-- `config.Config` (the slice the assembler reads). -/
structure Config where
  relayConfig : RelayConfig
deriving DecidableEq

/-- Results of every external call a single pass can make.  The environment
is fixed for the pass: repeated calls to the same query observe the same
answer.  `latestOracleSeqAllVoted` returns `none` for the SQL `-1` (no
all-voted row). -/
structure Env where
  now : Int
  txDelayAlertThreshHold : Int
  inturnRelayer : Except Err InturnRelayer
  nextDeliveryOracleSeq : Except Err Nat
  nonce : Except Err Nat
  nonceOnNextBlock : Except Err Nat
  latestOracleSeqAllVoted : Except Err (Option Nat)
  nextSendSeq : Except Err Nat
  packagesByOracleSequence : Nat → Except Err (List BscRelayPackage)
  getVotes : Nat → Nat → Except Err (List Vote)
  queryCachedLatestValidators : Except Err (List Validator)
  aggregate : List Vote → List Validator → Except Err (List Nat × List Nat)
  claimPackages : List Nat → List Nat → List Nat → Int → Nat → Nat → Except Err String
  updateBatchPackagesClaimedTxHash : List Int → String → Except Err Unit
  updateBatchPackagesStatusAndClaimedTxHash : List Int → TxStatus → String → Except Err Unit

/-- Observable side effects of a pass: the start of a loop iteration for a
sequence, a claim broadcast, and the two batch database updates. -/
inductive RelayEvent where
  | visit (seq : Nat)
  | claimSubmitted (seq : Nat) (nonce : Nat)
  | updateClaimedTxHash (ids : List Int) (txHash : String)
  | updateStatusAndClaimedTxHash (ids : List Int) (status : TxStatus) (txHash : String)
deriving DecidableEq

/-- Result of one pass of `BSCAssembler.process`: the returned error (or
`ok`), the final assembler state, and the recorded event trace. -/
structure PassResult where
  result : Except Err Unit
  state : AssemblerState
  events : List RelayEvent

/-- Outcome of one loop iteration: either the pass returns (`done`) or the
loop continues with the next sequence (`next`). -/
inductive LoopStep where
  | done (r : Except Err Unit) (st : AssemblerState) (evs : List RelayEvent)
  | next (st : AssemblerState) (evs : List RelayEvent)

/-- `BSCAssembler.processPkgs`: load votes, load cached validators,
aggregate the signature, broadcast the claim with the caller's nonce, then
record the claimed tx hash (stand-by) or set the batch `Delivered` and
advance the cursor (in-turn).  Mirrors `bsc_assembler.go` lines 203-245. -/
def BSCAssembler.processPkgs (env : Env) (st : AssemblerState)
    (pkgs : List BscRelayPackage) (channelId : Nat) (sequence : Nat)
    (nonce : Nat) (isInturnRelyer : Bool) :
    Except Err Unit × AssemblerState × List RelayEvent :=
  match env.getVotes channelId sequence with
  | .error e => (.error e, st, [])
  | .ok votes =>
    match env.queryCachedLatestValidators with
    | .error e => (.error e, st, [])
    | .ok validators =>
      match env.aggregate votes validators with
      | .error e => (.error e, st, [])
      | .ok agg =>
        match votes, pkgs with
        | v0 :: _, p0 :: _ =>
          match env.claimPackages v0.claimPayload agg.1 agg.2 p0.txTime sequence nonce with
          | .error e => (.error e, st, [.claimSubmitted sequence nonce])
          | .ok txHash =>
            let pkgIds := pkgs.map (·.id)
            if !isInturnRelyer then
              match env.updateBatchPackagesClaimedTxHash pkgIds txHash with
              | .error e =>
                (.error e, st,
                  [.claimSubmitted sequence nonce, .updateClaimedTxHash pkgIds txHash])
              | .ok _ =>
                (.ok (), st,
                  [.claimSubmitted sequence nonce, .updateClaimedTxHash pkgIds txHash])
            else
              match env.updateBatchPackagesStatusAndClaimedTxHash pkgIds .Delivered txHash with
              | .error e =>
                (.error e, st,
                  [.claimSubmitted sequence nonce,
                    .updateStatusAndClaimedTxHash pkgIds .Delivered txHash])
              | .ok _ =>
                (.ok (),
                  { st with inturnRelayerSequenceStatus.nextDeliverySeq := sequence + 1 },
                  [.claimSubmitted sequence nonce,
                    .updateStatusAndClaimedTxHash pkgIds .Delivered txHash])
        | _, _ => (.error .emptyVotes, st, [])

/-- The delay-alert bookkeeping at the top of a loop iteration
(`bsc_assembler.go` lines 163-166). -/
def BSCAssembler.alertCheck (env : Env) (i : Nat) (pkgTime : Int)
    (st : AssemblerState) : AssemblerState :=
  if env.now - pkgTime > env.txDelayAlertThreshHold then
    { st with alertSet := st.alertSet.insert i }
  else st

/-- One iteration of the claim loop for sequence `i`
(`bsc_assembler.go` lines 153-199): load the packages, run the delay
check, check the vote status, apply the stand-by in-turn timeout, invoke
the batch processor, and on an in-turn broadcast failure run the
nonce/sequence calibration. -/
def BSCAssembler.loopBody (env : Env) (cfg : Config) (channelId : Nat)
    (isInturn : Bool) (i : Nat) (st : AssemblerState) : LoopStep :=
  match env.packagesByOracleSequence i with
  | .error e => .done (.error e) st [.visit i]
  | .ok [] => .done (.ok ()) st [.visit i]
  | .ok (pkg0 :: restPkgs) =>
    let st1 := BSCAssembler.alertCheck env i pkg0.txTime st
    if pkg0.status != .AllVoted && pkg0.status != .Delivered then
      .done (.error (.insufficientVotes i)) st1 [.visit i]
    else if !isInturn &&
        decide (env.now < pkg0.txTime + cfg.relayConfig.bscToGreenfieldInturnRelayerTimeout) then
      .done (.ok ()) st1 [.visit i]
    else
      match BSCAssembler.processPkgs env st1 (pkg0 :: restPkgs) channelId i
          st1.relayerNonce isInturn with
      | (.ok _, st2, evs) =>
        .next { st2 with relayerNonce := st2.relayerNonce + 1 } (.visit i :: evs)
      | (.error e, st2, evs) =>
        if !isInturn then .done (.error e) st2 (.visit i :: evs)
        else
          match env.nonceOnNextBlock with
          | .error ne => .done (.error ne) st2 (.visit i :: evs)
          | .ok newNonce =>
            match env.nextDeliveryOracleSeq with
            | .error se =>
              .done (.error se) { st2 with relayerNonce := newNonce } (.visit i :: evs)
            | .ok newSeq =>
              .done (.error e)
                { st2 with relayerNonce := newNonce, inturnRelayerSequenceStatus.nextDeliverySeq := newSeq }
                (.visit i :: evs)

/-- The claim loop over the remaining sequences of the window. -/
def BSCAssembler.processLoop (env : Env) (cfg : Config) (channelId : Nat)
    (isInturn : Bool) : List Nat → AssemblerState → PassResult
  | [], st => ⟨.ok (), st, []⟩
  | i :: rest, st =>
    match BSCAssembler.loopBody env cfg channelId isInturn i st with
    | .done r st1 evs => ⟨r, st1, evs⟩
    | .next st1 evs =>
      let pr := BSCAssembler.processLoop env cfg channelId isInturn rest st1
      ⟨pr.result, pr.state, evs ++ pr.events⟩

/-- Alert-set reconciliation before the loop (`bsc_assembler.go`
lines 139-150): clear the set when `startSeq` passed its maximum. -/
def BSCAssembler.clearAlerts (startSeq : Nat) (st : AssemblerState) : AssemblerState :=
  if st.alertSet.isEmpty then st
  else if st.alertSet.foldl max 0 < startSeq then { st with alertSet := [] } else st

/-- Alert reconciliation followed by the claim loop over the inclusive
window `[startSeq, endSeq]`. -/
def BSCAssembler.runWindow (env : Env) (cfg : Config) (channelId : Nat)
    (isInturn : Bool) (startSeq endSeq : Nat) (st : AssemblerState) : PassResult :=
  BSCAssembler.processLoop env cfg channelId isInturn
    (List.range' startSeq (endSeq + 1 - startSeq))
    (BSCAssembler.clearAlerts startSeq st)

/-- In-turn cursor establishment (`bsc_assembler.go` lines 79-103).
Returns the updated state together with `.error` (failed pass),
`.ok none` (silent return inside the grace window) or `.ok (some startSeq)`. -/
def BSCAssembler.establishInturnCursor (env : Env) (cfg : Config)
    (ir : InturnRelayer) (st : AssemblerState) :
    AssemblerState × Except Err (Option Nat) :=
  if st.inturnRelayerSequenceStatus.hasRetrieved then
    (st, .ok (some st.inturnRelayerSequenceStatus.nextDeliverySeq))
  else
    let timeDiff : Int := env.now - ir.intervalStart
    if timeDiff < cfg.relayConfig.greenfieldSequenceUpdateLatency then
      if timeDiff < 0 then (st, .error .clockSkew) else (st, .ok none)
    else
      match env.nextDeliveryOracleSeq with
      | .error e => (st, .error e)
      | .ok startSeq =>
        match env.nonce with
        | .error e => (st, .error e)
        | .ok n =>
          ({ st with relayerNonce := n, inturnRelayerSequenceStatus := ⟨true, startSeq⟩ },
            .ok (some startSeq))

/-- Stand-by cursor establishment (`bsc_assembler.go` lines 104-117):
drop the retrieved flag, fetch the chain sequence and the nonce. -/
def BSCAssembler.establishStandbyCursor (env : Env) (st : AssemblerState) :
    AssemblerState × Except Err (Option Nat) :=
  let st0 := { st with inturnRelayerSequenceStatus.hasRetrieved := false }
  match env.nextDeliveryOracleSeq with
  | .error e => (st0, .error e)
  | .ok startSeq =>
    match env.nonce with
    | .error e => (st0, .error e)
    | .ok n => ({ st0 with relayerNonce := n }, .ok (some startSeq))

/-- One pass of `BSCAssembler.process` (`bsc_assembler.go` lines 61-201):
role resolution, cursor establishment, the metrics query, window end
selection, and the claim loop. -/
def BSCAssembler.process (env : Env) (cfg : Config) (blsPubKey : List Nat)
    (channelId : Nat) (st : AssemblerState) : PassResult :=
  match env.inturnRelayer with
  | .error e => ⟨.error e, st, []⟩
  | .ok ir =>
    let isInturn : Bool := blsPubKey == ir.blsPubKey
    let ec := if isInturn then BSCAssembler.establishInturnCursor env cfg ir st
      else BSCAssembler.establishStandbyCursor env st
    match ec.2 with
    | .error e => ⟨.error e, ec.1, []⟩
    | .ok none => ⟨.ok (), ec.1, []⟩
    | .ok (some startSeq) =>
      match env.nextSendSeq with
      | .error e => ⟨.error e, ec.1, []⟩
      | .ok _ =>
        if isInturn then
          match env.latestOracleSeqAllVoted with
          | .error e => ⟨.error e, ec.1, []⟩
          | .ok none => ⟨.ok (), ec.1, []⟩
          | .ok (some endSeq) =>
            BSCAssembler.runWindow env cfg channelId true startSeq endSeq ec.1
        else
          match env.nextSendSeq with
          | .error e => ⟨.error e, ec.1, []⟩
          | .ok endSeq =>
            BSCAssembler.runWindow env cfg channelId false startSeq endSeq ec.1

/-- Sequences of the claim-broadcast events of a trace. -/
def claimSeqs (evs : List RelayEvent) : List Nat :=
  evs.filterMap fun e => match e with
    | .claimSubmitted s _ => some s
    | _ => none

/-- Sequences whose loop iteration was entered. -/
def visitSeqs (evs : List RelayEvent) : List Nat :=
  evs.filterMap fun e => match e with
    | .visit s => some s
    | _ => none

/-- A row of the `greenfield_relay_transaction` table (fields read by the
latest-sequence query). -/
structure GreenfieldRelayTransaction where
  channelId : Nat
  sequence : Nat
  status : TxStatus
deriving DecidableEq

/-- The rows of the table matching the channel and status filter of the
query (`WHERE channel_id = ? and status = ?`), projected to `sequence`. -/
def matchingSeqs (tbl : List GreenfieldRelayTransaction) (channelId : Nat)
    (status : TxStatus) : List Nat :=
  (tbl.filter fun r => r.channelId == channelId && r.status == status).map (·.sequence)

/-- `GreenfieldDao.GetLatestSequenceByChannelIdAndStatus`
(`greenfield_dao.go` lines 61-72): `SELECT MAX(sequence) WHERE channel_id
= ? and status = ?`, and `-1` when the aggregate is NULL (no row matched). -/
def GreenfieldDao.GetLatestSequenceByChannelIdAndStatus
    (tbl : List GreenfieldRelayTransaction) (channelId : Nat)
    (status : TxStatus) : Int :=
  match matchingSeqs tbl channelId status with
  | [] => -1
  | s :: rest => (((s :: rest).foldl max 0 : Nat) : Int)

/-- The spec wording of the same query, written from the spec sentence
"returns the maximum sequence whose rows are all in the given status, or
-1 if none": a sequence qualifies only when every row of the channel
carrying that sequence has the given status. -/
def latestSequenceWithStatusSpec (tbl : List GreenfieldRelayTransaction)
    (channelId : Nat) (status : TxStatus) : Int :=
  let qs := ((tbl.filter fun r => r.channelId == channelId).map (·.sequence)).filter
    fun q => (tbl.filter fun r => r.channelId == channelId && r.sequence == q).all
      fun r => r.status == status
  match qs with
  | [] => -1
  | s :: rest => (((s :: rest).foldl max 0 : Nat) : Int)

/-- The cached-validators field of `GreenfieldExecutor`. -/
structure GreenfieldExecutorState where
  validators : List Validator
deriving DecidableEq

/-- Environment of the executor's validator queries: the result the
consensus RPC `Validators` call would return now. -/
structure ExecEnv where
  queryLatestValidators : Except Err (List Validator)

/-- `GreenfieldExecutor.QueryCachedLatestValidators`
(`greenfield_executor.go` lines 259-268): return the cache when it is
non-empty, otherwise fetch synchronously; the cache field is returned
unchanged in every case. -/
def GreenfieldExecutor.QueryCachedLatestValidators (env : ExecEnv)
    (e : GreenfieldExecutorState) :
    Except Err (List Validator) × GreenfieldExecutorState :=
  if e.validators.length != 0 then (.ok e.validators, e)
  else
    match env.queryLatestValidators with
    | .error err => (.error err, e)
    | .ok vs => (.ok vs, e)

/-- One tick of `GreenfieldExecutor.UpdateCachedLatestValidatorsLoop`
(`greenfield_executor.go` lines 270-280): fetch and overwrite the cache,
keeping the old cache when the fetch fails. -/
def GreenfieldExecutor.UpdateCachedLatestValidatorsTick (env : ExecEnv)
    (e : GreenfieldExecutorState) : GreenfieldExecutorState :=
  match env.queryLatestValidators with
  | .error _ => e
  | .ok vs => { e with validators := vs }

/-- The events recorded by one loop iteration. -/
def LoopStep.events : LoopStep → List RelayEvent
  | .done _ _ evs => evs
  | .next _ evs => evs

/-- Concrete fixtures used by the closed theorems below. -/
def pkgAllVoted : BscRelayPackage := ⟨1, 100, 900, .AllVoted⟩

def pkgDelivered : BscRelayPackage := ⟨1, 100, 900, .Delivered⟩

def pkgYoung : BscRelayPackage := ⟨1, 100, 990, .AllVoted⟩

/-- A baseline environment: the chain designates the relayer with BLS key
`[1]` as in-turn for `[50, 200)`, the current time is `1000`, the next
delivery sequence is `5`, and every external call succeeds. -/
def baseEnv : Env where
  now := 1000
  txDelayAlertThreshHold := 1000000
  inturnRelayer := .ok ⟨[1], 50, 200⟩
  nextDeliveryOracleSeq := .ok 5
  nonce := .ok 11
  nonceOnNextBlock := .ok 21
  latestOracleSeqAllVoted := .ok (some 6)
  nextSendSeq := .ok 7
  packagesByOracleSequence := fun _ => .ok [pkgAllVoted]
  getVotes := fun _ _ => .ok [⟨[7]⟩]
  queryCachedLatestValidators := .ok [⟨[9]⟩]
  aggregate := fun _ _ => .ok ([3], [1])
  claimPackages := fun _ _ _ _ _ _ => .ok "h"
  updateBatchPackagesClaimedTxHash := fun _ _ => .ok ()
  updateBatchPackagesStatusAndClaimedTxHash := fun _ _ _ => .ok ()

def baseCfg : Config := ⟨⟨30, 120⟩⟩

def baseState : AssemblerState := ⟨⟨true, 5⟩, 11, []⟩

def freshState : AssemblerState := ⟨⟨false, 0⟩, 0, []⟩

/-- Environment whose only pending sequence `5` carries a `Delivered` row. -/
def envDelivered : Env :=
  { baseEnv with latestOracleSeqAllVoted := .ok (some 5), packagesByOracleSequence := fun _ => .ok [pkgDelivered] }

/-- Environment where the source reports next send sequence `5` and the
store has no rows yet for any sequence. -/
def envGapAtNextSend : Env :=
  { baseEnv with nextSendSeq := .ok 5, packagesByOracleSequence := fun _ => .ok [] }

/-- Environment whose sequence `5` package is younger than the in-turn
timeout at time `1000`. -/
def envYoung : Env :=
  { baseEnv with nextSendSeq := .ok 5, packagesByOracleSequence := fun _ => .ok [pkgYoung] }

/-- Environment where the vote store read fails. -/
def envVotesFail : Env :=
  { baseEnv with latestOracleSeqAllVoted := .ok (some 5), getVotes := fun _ _ => .error (.external "rpc") }

/-- Environment observed before the relay interval has begun. -/
def envSkew : Env := { baseEnv with now := 40 }

/-- A table holding two rows of channel 1 and sequence 7 with different
statuses. -/
def tblMixed : List GreenfieldRelayTransaction := [⟨1, 7, .AllVoted⟩, ⟨1, 7, .Saved⟩]

def baseExecEnv : ExecEnv := ⟨.ok [⟨[9]⟩]⟩

def emptyCacheState : GreenfieldExecutorState := ⟨[]⟩

lemma pairwise_lt_range' (s n : Nat) : (List.range' s n).Pairwise (· < ·) := by
  induction n generalizing s with
  | zero => simp
  | succ n ih =>
    rw [List.range'_succ]
    refine List.Pairwise.cons ?_ (ih (s + 1))
    intro b hb
    have := (List.mem_range'_1.mp hb).1
    omega

lemma claimSeqs_append (a b : List RelayEvent) :
    claimSeqs (a ++ b) = claimSeqs a ++ claimSeqs b := by
  simp [claimSeqs]

lemma visitSeqs_append (a b : List RelayEvent) :
    visitSeqs (a ++ b) = visitSeqs a ++ visitSeqs b := by
  simp [visitSeqs]

lemma processPkgs_events_shape (env : Env) (st : AssemblerState)
    (pkgs : List BscRelayPackage) (ch i n : Nat) (b : Bool) :
    (BSCAssembler.processPkgs env st pkgs ch i n b).2.2 = [] ∨
    ∃ evs, (BSCAssembler.processPkgs env st pkgs ch i n b).2.2 =
        .claimSubmitted i n :: evs ∧
      ∀ e ∈ evs, (∃ ids h, e = .updateClaimedTxHash ids h) ∨
        ∃ ids stt h, e = .updateStatusAndClaimedTxHash ids stt h := by
  unfold BSCAssembler.processPkgs
  dsimp only
  repeat' split
  all_goals simp

lemma processPkgs_claimSeqs (env : Env) (st : AssemblerState)
    (pkgs : List BscRelayPackage) (ch i n : Nat) (b : Bool) :
    ∀ s ∈ claimSeqs (BSCAssembler.processPkgs env st pkgs ch i n b).2.2, s = i := by
  intro s hs
  rcases processPkgs_events_shape env st pkgs ch i n b with h | ⟨evs, h, hevs⟩
  · rw [h] at hs; simp [claimSeqs] at hs
  · rw [h] at hs
    have hnil : claimSeqs evs = [] := by
      apply List.filterMap_eq_nil_iff.mpr
      intro e he
      rcases hevs e he with ⟨ids, hh, rfl⟩ | ⟨ids, stt, hh, rfl⟩ <;> rfl
    have hcons : claimSeqs (RelayEvent.claimSubmitted i n :: evs) = i :: claimSeqs evs := rfl
    rw [hcons, hnil] at hs
    simpa using hs

lemma processPkgs_visitSeqs (env : Env) (st : AssemblerState)
    (pkgs : List BscRelayPackage) (ch i n : Nat) (b : Bool) :
    visitSeqs (BSCAssembler.processPkgs env st pkgs ch i n b).2.2 = [] := by
  rcases processPkgs_events_shape env st pkgs ch i n b with h | ⟨evs, h, hevs⟩
  · rw [h]; rfl
  · rw [h]
    apply List.filterMap_eq_nil_iff.mpr
    intro e he
    simp at he
    rcases he with rfl | he
    · rfl
    · rcases hevs e he with ⟨ids, hh, rfl⟩ | ⟨ids, stt, hh, rfl⟩ <;> rfl

lemma loopBody_gap (env : Env) (cfg : Config) (ch : Nat) (b : Bool) (i : Nat)
    (st : AssemblerState) (hp : env.packagesByOracleSequence i = .ok []) :
    BSCAssembler.loopBody env cfg ch b i st = .done (.ok ()) st [.visit i] := by
  unfold BSCAssembler.loopBody
  rw [hp]

lemma loopBody_young (env : Env) (cfg : Config) (ch i : Nat) (st : AssemblerState)
    (p : BscRelayPackage) (ps : List BscRelayPackage)
    (hp : env.packagesByOracleSequence i = .ok (p :: ps))
    (hy : env.now < p.txTime + cfg.relayConfig.bscToGreenfieldInturnRelayerTimeout) :
    ∃ r st1, BSCAssembler.loopBody env cfg ch false i st = .done r st1 [.visit i] := by
  unfold BSCAssembler.loopBody
  rw [hp]
  dsimp only
  by_cases hst : (p.status != .AllVoted && p.status != .Delivered) = true
  · rw [if_pos hst]
    exact ⟨_, _, rfl⟩
  · rw [if_neg hst, if_pos (by simp [hy])]
    exact ⟨_, _, rfl⟩

lemma loopBody_events_shape (env : Env) (cfg : Config) (ch : Nat) (b : Bool)
    (i : Nat) (st : AssemblerState) :
    ∃ evsP, (BSCAssembler.loopBody env cfg ch b i st).events = .visit i :: evsP ∧
      (evsP = [] ∨ ∃ p ps, env.packagesByOracleSequence i = .ok (p :: ps) ∧
        (p.status = .AllVoted ∨ p.status = .Delivered) ∧
        ¬(b = false ∧
          env.now < p.txTime + cfg.relayConfig.bscToGreenfieldInturnRelayerTimeout) ∧
        evsP = (BSCAssembler.processPkgs env (BSCAssembler.alertCheck env i p.txTime st)
          (p :: ps) ch i (BSCAssembler.alertCheck env i p.txTime st).relayerNonce b).2.2) := by
  unfold BSCAssembler.loopBody
  cases hp : env.packagesByOracleSequence i with
  | error e => exact ⟨[], rfl, .inl rfl⟩
  | ok l =>
    cases l with
    | nil => exact ⟨[], rfl, .inl rfl⟩
    | cons p ps =>
      dsimp only
      by_cases hst : (p.status != .AllVoted && p.status != .Delivered) = true
      · rw [if_pos hst]
        exact ⟨[], rfl, .inl rfl⟩
      · rw [if_neg hst]
        have hstOk : p.status = .AllVoted ∨ p.status = .Delivered := by
          rcases Bool.and_eq_false_iff.mp (Bool.not_eq_true _ ▸ hst) with h | h
          · left; simpa using h
          · right; simpa using h
        by_cases hto : (!b &&
            decide (env.now < p.txTime + cfg.relayConfig.bscToGreenfieldInturnRelayerTimeout)) = true
        · rw [if_pos hto]
          exact ⟨[], rfl, .inl rfl⟩
        · rw [if_neg hto]
          have hnot : ¬(b = false ∧
              env.now < p.txTime + cfg.relayConfig.bscToGreenfieldInturnRelayerTimeout) := by
            intro ⟨hb, hyy⟩
            exact hto (by simp [hb, hyy])
          cases hpp : BSCAssembler.processPkgs env (BSCAssembler.alertCheck env i p.txTime st)
              (p :: ps) ch i (BSCAssembler.alertCheck env i p.txTime st).relayerNonce b with
          | mk r rest2 =>
            cases rest2 with
            | mk st2 evs =>
              have hevs : evs = (BSCAssembler.processPkgs env
                  (BSCAssembler.alertCheck env i p.txTime st) (p :: ps) ch i
                  (BSCAssembler.alertCheck env i p.txTime st).relayerNonce b).2.2 := by
                rw [hpp]
              cases r with
              | ok u =>
                exact ⟨evs, rfl, .inr ⟨p, ps, rfl, hstOk, hnot, hevs⟩⟩
              | error e =>
                cases b with
                | false => exact ⟨evs, rfl, .inr ⟨p, ps, rfl, hstOk, hnot, hevs⟩⟩
                | true =>
                  cases hnn : env.nonceOnNextBlock with
                  | error ne => exact ⟨evs, rfl, .inr ⟨p, ps, rfl, hstOk, hnot, hevs⟩⟩
                  | ok newNonce =>
                    cases hnd : env.nextDeliveryOracleSeq with
                    | error se => exact ⟨evs, rfl, .inr ⟨p, ps, rfl, hstOk, hnot, hevs⟩⟩
                    | ok newSeq => exact ⟨evs, rfl, .inr ⟨p, ps, rfl, hstOk, hnot, hevs⟩⟩

lemma loopBody_visitSeqs (env : Env) (cfg : Config) (ch : Nat) (b : Bool)
    (i : Nat) (st : AssemblerState) :
    ∀ s ∈ visitSeqs (BSCAssembler.loopBody env cfg ch b i st).events, s = i := by
  intro s hs
  rcases loopBody_events_shape env cfg ch b i st with ⟨evsP, hev, hcase⟩
  rw [hev] at hs
  have hcons : visitSeqs (RelayEvent.visit i :: evsP) = i :: visitSeqs evsP := rfl
  rw [hcons] at hs
  rcases List.mem_cons.mp hs with rfl | hs
  · rfl
  · rcases hcase with rfl | ⟨p, ps, hp, hst, hto, rfl⟩
    · simp [visitSeqs] at hs
    · rw [processPkgs_visitSeqs] at hs
      simp at hs

lemma loopBody_claimSeqs (env : Env) (cfg : Config) (ch : Nat) (b : Bool)
    (i : Nat) (st : AssemblerState) :
    ∀ s ∈ claimSeqs (BSCAssembler.loopBody env cfg ch b i st).events,
      s = i ∧ ∃ p ps, env.packagesByOracleSequence i = .ok (p :: ps) ∧
        (p.status = .AllVoted ∨ p.status = .Delivered) := by
  intro s hs
  rcases loopBody_events_shape env cfg ch b i st with ⟨evsP, hev, hcase⟩
  rw [hev] at hs
  have hcons : claimSeqs (RelayEvent.visit i :: evsP) = claimSeqs evsP := rfl
  rw [hcons] at hs
  rcases hcase with rfl | ⟨p, ps, hp, hst, hto, rfl⟩
  · simp [claimSeqs] at hs
  · have := processPkgs_claimSeqs env (BSCAssembler.alertCheck env i p.txTime st)
      (p :: ps) ch i (BSCAssembler.alertCheck env i p.txTime st).relayerNonce b s hs
    exact ⟨this, p, ps, hp, hst⟩

lemma loopBody_claimSeqs_standby_young (env : Env) (cfg : Config) (ch : Nat)
    (i : Nat) (st : AssemblerState) (p : BscRelayPackage) (ps : List BscRelayPackage)
    (hp : env.packagesByOracleSequence i = .ok (p :: ps))
    (hy : env.now < p.txTime + cfg.relayConfig.bscToGreenfieldInturnRelayerTimeout) :
    claimSeqs (BSCAssembler.loopBody env cfg ch false i st).events = [] := by
  rcases loopBody_young env cfg ch i st p ps hp hy with ⟨r, st1, heq⟩
  rw [heq]
  rfl

lemma processLoop_visitSeqs (env : Env) (cfg : Config) (ch : Nat) (b : Bool) :
    ∀ (seqs : List Nat) (st : AssemblerState),
      ∀ s ∈ visitSeqs (BSCAssembler.processLoop env cfg ch b seqs st).events, s ∈ seqs := by
  intro seqs
  induction seqs with
  | nil => intro st s hs; simp [BSCAssembler.processLoop, visitSeqs] at hs
  | cons i rest ih =>
    intro st s hs
    rw [BSCAssembler.processLoop] at hs
    cases hlb : BSCAssembler.loopBody env cfg ch b i st with
    | done r st1 evs =>
      rw [hlb] at hs
      have : s = i := by
        have hv := loopBody_visitSeqs env cfg ch b i st s
        rw [hlb] at hv
        exact hv hs
      simp [this]
    | next st1 evs =>
      rw [hlb] at hs
      dsimp only at hs
      rw [visitSeqs_append] at hs
      rcases List.mem_append.mp hs with hs | hs
      · have hv := loopBody_visitSeqs env cfg ch b i st s
        rw [hlb] at hv
        simp [hv hs]
      · exact List.mem_cons_of_mem _ (ih st1 s hs)

lemma processLoop_claimSeqs_status (env : Env) (cfg : Config) (ch : Nat) (b : Bool) :
    ∀ (seqs : List Nat) (st : AssemblerState),
      ∀ s ∈ claimSeqs (BSCAssembler.processLoop env cfg ch b seqs st).events,
        ∃ p ps, env.packagesByOracleSequence s = .ok (p :: ps) ∧
          (p.status = .AllVoted ∨ p.status = .Delivered) := by
  intro seqs
  induction seqs with
  | nil => intro st s hs; simp [BSCAssembler.processLoop, claimSeqs] at hs
  | cons i rest ih =>
    intro st s hs
    rw [BSCAssembler.processLoop] at hs
    cases hlb : BSCAssembler.loopBody env cfg ch b i st with
    | done r st1 evs =>
      rw [hlb] at hs
      have hc := loopBody_claimSeqs env cfg ch b i st s
      rw [hlb] at hc
      rcases hc hs with ⟨rfl, p, ps, hp, hst⟩
      exact ⟨p, ps, hp, hst⟩
    | next st1 evs =>
      rw [hlb] at hs
      dsimp only at hs
      rw [claimSeqs_append] at hs
      rcases List.mem_append.mp hs with hs | hs
      · have hc := loopBody_claimSeqs env cfg ch b i st s
        rw [hlb] at hc
        rcases hc hs with ⟨rfl, p, ps, hp, hst⟩
        exact ⟨p, ps, hp, hst⟩
      · exact ih st1 s hs

lemma processLoop_standby_young (env : Env) (cfg : Config) (ch i : Nat)
    (p : BscRelayPackage) (ps : List BscRelayPackage)
    (hp : env.packagesByOracleSequence i = .ok (p :: ps))
    (hy : env.now < p.txTime + cfg.relayConfig.bscToGreenfieldInturnRelayerTimeout) :
    ∀ (seqs : List Nat), seqs.Pairwise (· < ·) → ∀ (st : AssemblerState),
      i ∈ visitSeqs (BSCAssembler.processLoop env cfg ch false seqs st).events →
      ∀ s ∈ claimSeqs (BSCAssembler.processLoop env cfg ch false seqs st).events, s < i := by
  intro seqs
  induction seqs with
  | nil => intro hsort st hvis; simp [BSCAssembler.processLoop, visitSeqs] at hvis
  | cons j rest ih =>
    intro hsort st hvis s hs
    obtain ⟨hj, hrest⟩ := List.pairwise_cons.mp hsort
    rw [BSCAssembler.processLoop] at hvis hs
    cases hlb : BSCAssembler.loopBody env cfg ch false j st with
    | done r st1 evs =>
      rw [hlb] at hvis hs
      have hij : i = j := by
        have hv := loopBody_visitSeqs env cfg ch false j st i
        rw [hlb] at hv
        exact hv hvis
      subst hij
      have hnil := loopBody_claimSeqs_standby_young env cfg ch i st p ps hp hy
      rw [hlb] at hnil
      have hs' : s ∈ claimSeqs evs := hs
      have hnil' : claimSeqs evs = [] := hnil
      rw [hnil'] at hs'
      simp at hs'
    | next st1 evs =>
      rw [hlb] at hvis hs
      dsimp only at hvis hs
      rw [visitSeqs_append] at hvis
      rw [claimSeqs_append] at hs
      have hiRec : i ∈ visitSeqs (BSCAssembler.processLoop env cfg ch false rest st1).events := by
        rcases List.mem_append.mp hvis with hv | hv
        · exfalso
          have hij : i = j := by
            have hvv := loopBody_visitSeqs env cfg ch false j st i
            rw [hlb] at hvv
            exact hvv hv
          subst hij
          rcases loopBody_young env cfg ch i st p ps hp hy with ⟨r, st2, heq⟩
          rw [hlb] at heq
          simp at heq
        · exact hv
      have hji : j < i := by
        have := processLoop_visitSeqs env cfg ch false rest st1 i hiRec
        exact hj i this
      rcases List.mem_append.mp hs with hc | hc
      · have hcc := loopBody_claimSeqs env cfg ch false j st s
        rw [hlb] at hcc
        rcases hcc hc with ⟨rfl, _⟩
        exact hji
      · exact ih hrest st1 hiRec s hc

lemma processLoop_gap (env : Env) (cfg : Config) (ch : Nat) (b : Bool) (i : Nat)
    (hp : env.packagesByOracleSequence i = .ok []) :
    ∀ (seqs : List Nat), seqs.Pairwise (· < ·) → ∀ (st : AssemblerState),
      i ∈ visitSeqs (BSCAssembler.processLoop env cfg ch b seqs st).events →
      (BSCAssembler.processLoop env cfg ch b seqs st).result = .ok () ∧
      ∀ s ∈ claimSeqs (BSCAssembler.processLoop env cfg ch b seqs st).events, s < i := by
  intro seqs
  induction seqs with
  | nil => intro hsort st hvis; simp [BSCAssembler.processLoop, visitSeqs] at hvis
  | cons j rest ih =>
    intro hsort st hvis
    obtain ⟨hj, hrest⟩ := List.pairwise_cons.mp hsort
    by_cases hij : i = j
    · subst hij
      rw [BSCAssembler.processLoop, loopBody_gap env cfg ch b i st hp]
      constructor
      · rfl
      · intro s hs
        simp [claimSeqs] at hs
    · rw [BSCAssembler.processLoop] at hvis ⊢
      cases hlb : BSCAssembler.loopBody env cfg ch b j st with
      | done r st1 evs =>
        try rw [hlb] at hvis
        exfalso
        have hv := loopBody_visitSeqs env cfg ch b j st i
        rw [hlb] at hv
        exact hij (hv hvis)
      | next st1 evs =>
        try rw [hlb] at hvis
        dsimp only at hvis ⊢
        rw [visitSeqs_append] at hvis
        have hiRec : i ∈ visitSeqs (BSCAssembler.processLoop env cfg ch b rest st1).events := by
          rcases List.mem_append.mp hvis with hv | hv
          · exfalso
            have hvv := loopBody_visitSeqs env cfg ch b j st i
            rw [hlb] at hvv
            exact hij (hvv hv)
          · exact hv
        have hji : j < i := hj i (processLoop_visitSeqs env cfg ch b rest st1 i hiRec)
        obtain ⟨hres, hclaims⟩ := ih hrest st1 hiRec
        refine ⟨hres, ?_⟩
        intro s hs
        rw [claimSeqs_append] at hs
        rcases List.mem_append.mp hs with hc | hc
        · have hcc := loopBody_claimSeqs env cfg ch b j st s
          rw [hlb] at hcc
          rcases hcc hc with ⟨rfl, _⟩
          exact hji
        · exact hclaims s hc

lemma process_cases (env : Env) (cfg : Config) (bls : List Nat) (ch : Nat)
    (st : AssemblerState) :
    (BSCAssembler.process env cfg bls ch st).events = [] ∨
    ∃ ir startSeq endSeq st1, env.inturnRelayer = .ok ir ∧
      BSCAssembler.process env cfg bls ch st =
        BSCAssembler.runWindow env cfg ch (bls == ir.blsPubKey) startSeq endSeq st1 ∧
      ((bls == ir.blsPubKey) = false → env.nextSendSeq = .ok endSeq) := by
  unfold BSCAssembler.process
  cases hir : env.inturnRelayer with
  | error e => exact .inl rfl
  | ok ir =>
    dsimp only
    cases hb : (bls == ir.blsPubKey) with
    | true =>
      simp only [if_true]
      cases hec : (BSCAssembler.establishInturnCursor env cfg ir st).2 with
      | error e => exact .inl rfl
      | ok cur =>
        cases cur with
        | none => exact .inl rfl
        | some startSeq =>
          cases hns : env.nextSendSeq with
          | error e => exact .inl rfl
          | ok nsv =>
            cases hlv : env.latestOracleSeqAllVoted with
            | error e => exact .inl rfl
            | ok lv =>
              cases lv with
              | none => exact .inl rfl
              | some endSeq =>
                right
                refine ⟨ir, startSeq, endSeq,
                  (BSCAssembler.establishInturnCursor env cfg ir st).1, rfl, by rw [hb], ?_⟩
                intro hf
                rw [hb] at hf
                simp at hf
    | false =>
      simp only [Bool.false_eq_true, if_false]
      cases hec : (BSCAssembler.establishStandbyCursor env st).2 with
      | error e => exact .inl rfl
      | ok cur =>
        cases cur with
        | none => exact .inl rfl
        | some startSeq =>
          cases hns : env.nextSendSeq with
          | error e => exact .inl rfl
          | ok nsv =>
            right
            exact ⟨ir, startSeq, nsv,
              (BSCAssembler.establishStandbyCursor env st).1, rfl, by rw [hb], fun _ => rfl⟩

lemma mem_window_le (a b v : Nat) (h : v ∈ List.range' a (b + 1 - a)) : v ≤ b := by
  have := List.mem_range'_1.mp h
  omega

lemma runWindow_claimSeqs_status (env : Env) (cfg : Config) (ch : Nat) (b : Bool)
    (a e : Nat) (st : AssemblerState) :
    ∀ s ∈ claimSeqs (BSCAssembler.runWindow env cfg ch b a e st).events,
      ∃ p ps, env.packagesByOracleSequence s = .ok (p :: ps) ∧
        (p.status = .AllVoted ∨ p.status = .Delivered) := by
  intro s hs
  rw [BSCAssembler.runWindow] at hs
  exact processLoop_claimSeqs_status env cfg ch b _ _ s hs

lemma runWindow_visit_le (env : Env) (cfg : Config) (ch : Nat) (b : Bool)
    (a e : Nat) (st : AssemblerState) :
    ∀ v ∈ visitSeqs (BSCAssembler.runWindow env cfg ch b a e st).events, v ≤ e := by
  intro v hv
  rw [BSCAssembler.runWindow] at hv
  exact mem_window_le a e v (processLoop_visitSeqs env cfg ch b _ _ v hv)

/-- Claim C1, counterexample: in an in-turn pass over the environment
`envDelivered` the assembler submits a claim for sequence 5, yet the single
package row stored for 5 has status `Delivered`, not `AllVoted`.  This
refutes the claim that every package row of a claimed sequence had status
`AllVoted` at submission time. -/
theorem C1_counterexample :
    5 ∈ claimSeqs (BSCAssembler.process envDelivered baseCfg [1] 0 baseState).events ∧
    envDelivered.packagesByOracleSequence 5 = .ok [pkgDelivered] ∧
    ¬(∀ p ∈ [pkgDelivered], p.status = TxStatus.AllVoted) := by
  refine ⟨by decide, rfl, by decide⟩

/-- Claim C1, amended: whenever the assembler submits a claim for a
sequence `s`, the package list stored for `s` is non-empty and its first
row had status `AllVoted` or `Delivered` at submission time (only the
first row's status is inspected). -/
theorem C1_amended_thm (env : Env) (cfg : Config) (bls : List Nat) (ch : Nat)
    (st : AssemblerState) (s : Nat)
    (hs : s ∈ claimSeqs (BSCAssembler.process env cfg bls ch st).events) :
    ∃ p ps, env.packagesByOracleSequence s = .ok (p :: ps) ∧
      (p.status = TxStatus.AllVoted ∨ p.status = TxStatus.Delivered) := by
  rcases process_cases env cfg bls ch st with h | ⟨ir, a, e, st1, hir, heq, hend⟩
  · rw [h] at hs
    simp [claimSeqs] at hs
  · rw [heq] at hs
    exact runWindow_claimSeqs_status env cfg ch _ a e st1 s hs

/-- Claim C1, witness: the amended statement applied to the concrete
claim submitted for sequence 5 in `envDelivered`. -/
theorem C1_amended_witness :
    ∃ p ps, envDelivered.packagesByOracleSequence 5 = .ok (p :: ps) ∧
      (p.status = TxStatus.AllVoted ∨ p.status = TxStatus.Delivered) :=
  C1_amended_thm envDelivered baseCfg [1] 0 baseState 5 (by decide)

/-- Claim C3, counterexample: in a stand-by pass over `envGapAtNextSend`
the source's next-send-sequence query returns 5 and the loop body is
executed for sequence 5 itself, not only up to 4 = 5 − 1.  This refutes
the claim that the end of the stand-by iteration window is
`next_send_sequence − 1`. -/
theorem C3_counterexample :
    envGapAtNextSend.nextSendSeq = .ok 5 ∧
    5 ∈ visitSeqs (BSCAssembler.process envGapAtNextSend baseCfg [2] 0 baseState).events ∧
    ¬(∀ v ∈ visitSeqs (BSCAssembler.process envGapAtNextSend baseCfg [2] 0 baseState).events,
        v ≤ 5 - 1) := by
  refine ⟨rfl, by decide, by decide⟩

/-- Claim C3, amended: in a stand-by pass the end of the iteration window
equals `next_send_sequence(channel)` itself: every sequence for which the
loop body is executed is at most the value returned by the source
executor's next-send-sequence query (and the window includes that value). -/
theorem C3_amended_thm (env : Env) (cfg : Config) (bls : List Nat) (ch : Nat)
    (st : AssemblerState) (ir : InturnRelayer) (N : Nat)
    (hir : env.inturnRelayer = .ok ir)
    (hb : (bls == ir.blsPubKey) = false)
    (hns : env.nextSendSeq = .ok N) :
    ∀ v ∈ visitSeqs (BSCAssembler.process env cfg bls ch st).events, v ≤ N := by
  intro v hv
  rcases process_cases env cfg bls ch st with h | ⟨ir2, a, e, st1, hir2, heq, hend⟩
  · rw [h] at hv
    simp [visitSeqs] at hv
  · have hii : ir2 = ir := by
      rw [hir] at hir2
      exact (Except.ok.injEq _ _).mp hir2.symm
    subst hii
    have he : e = N := by
      have h2 := hend hb
      rw [hns] at h2
      injection h2 with h3
      exact h3.symm
    subst he
    rw [heq] at hv
    exact runWindow_visit_le env cfg ch _ a e st1 v hv

/-- Claim C3, witness: the amended bound applied to the concrete stand-by
pass over `envGapAtNextSend`, whose loop visits sequence 5 = the value of
the next-send-sequence query. -/
theorem C3_amended_witness :
    5 ∈ visitSeqs (BSCAssembler.process envGapAtNextSend baseCfg [2] 0 baseState).events ∧
    ∀ v ∈ visitSeqs (BSCAssembler.process envGapAtNextSend baseCfg [2] 0 baseState).events,
      v ≤ 5 :=
  ⟨by decide,
    C3_amended_thm envGapAtNextSend baseCfg [2] 0 baseState ⟨[1], 50, 200⟩ 5 rfl (by decide) rfl⟩

/-- Claim C5: a stand-by pass never submits a claim for a sequence whose
first stored package is younger than the in-turn timeout: if the loop
reaches such a sequence `i`, every claim submitted in the pass is for a
sequence strictly below `i` (so none for `i` or any later sequence). -/
theorem C5_standby_timeout_thm (env : Env) (cfg : Config) (bls : List Nat)
    (ch : Nat) (st : AssemblerState) (ir : InturnRelayer) (i : Nat)
    (p : BscRelayPackage) (ps : List BscRelayPackage)
    (hir : env.inturnRelayer = .ok ir)
    (hb : (bls == ir.blsPubKey) = false)
    (hp : env.packagesByOracleSequence i = .ok (p :: ps))
    (hy : env.now < p.txTime + cfg.relayConfig.bscToGreenfieldInturnRelayerTimeout)
    (hvis : i ∈ visitSeqs (BSCAssembler.process env cfg bls ch st).events) :
    ∀ s ∈ claimSeqs (BSCAssembler.process env cfg bls ch st).events, s < i := by
  rcases process_cases env cfg bls ch st with h | ⟨ir2, a, e, st1, hir2, heq, hend⟩
  · rw [h] at hvis
    simp [visitSeqs] at hvis
  · have hii : ir2 = ir := by
      rw [hir] at hir2
      exact (Except.ok.injEq _ _).mp hir2.symm
    subst hii
    rw [hb] at heq
    rw [heq] at hvis ⊢
    rw [BSCAssembler.runWindow] at hvis ⊢
    exact processLoop_standby_young env cfg ch i p ps hp hy _
      (pairwise_lt_range' a (e + 1 - a)) _ hvis

/-- Claim C5, witness: in the stand-by pass over `envYoung` the loop
reaches sequence 5, whose package is 990-seconds fresh against a timeout
of 120 at time 1000, and indeed every claim in the pass is below 5 (there
are none). -/
theorem C5_standby_timeout_witness :
    5 ∈ visitSeqs (BSCAssembler.process envYoung baseCfg [2] 0 baseState).events ∧
    ∀ s ∈ claimSeqs (BSCAssembler.process envYoung baseCfg [2] 0 baseState).events, s < 5 :=
  ⟨by decide,
    C5_standby_timeout_thm envYoung baseCfg [2] 0 baseState ⟨[1], 50, 200⟩ 5
      pkgYoung [] rfl (by decide) rfl (by decide) (by decide)⟩

/-- Claim C8: when the loop reaches a sequence `i` for which the store
returns an empty package list, the pass returns without error and no claim
is submitted for `i` or any later sequence — the gap is neither bridged
nor skipped. -/
theorem C8_gap_thm (env : Env) (cfg : Config) (bls : List Nat) (ch : Nat)
    (st : AssemblerState) (i : Nat)
    (hp : env.packagesByOracleSequence i = .ok [])
    (hvis : i ∈ visitSeqs (BSCAssembler.process env cfg bls ch st).events) :
    (BSCAssembler.process env cfg bls ch st).result = .ok () ∧
    ∀ s ∈ claimSeqs (BSCAssembler.process env cfg bls ch st).events, s < i := by
  rcases process_cases env cfg bls ch st with h | ⟨ir, a, e, st1, hir, heq, hend⟩
  · rw [h] at hvis
    simp [visitSeqs] at hvis
  · rw [heq] at hvis ⊢
    rw [BSCAssembler.runWindow] at hvis ⊢
    exact processLoop_gap env cfg ch _ i hp _ (pairwise_lt_range' a (e + 1 - a)) _ hvis

/-- Claim C8, witness: the stand-by pass over `envGapAtNextSend` reaches
sequence 5, finds no rows, returns `ok` and submits nothing. -/
theorem C8_gap_witness :
    (BSCAssembler.process envGapAtNextSend baseCfg [2] 0 baseState).result = .ok () ∧
    ∀ s ∈ claimSeqs (BSCAssembler.process envGapAtNextSend baseCfg [2] 0 baseState).events,
      s < 5 :=
  C8_gap_thm envGapAtNextSend baseCfg [2] 0 baseState 5 rfl (by decide)

lemma status_check_false (p : BscRelayPackage)
    (hst : p.status = TxStatus.AllVoted ∨ p.status = TxStatus.Delivered) :
    (p.status != TxStatus.AllVoted && p.status != TxStatus.Delivered) = false := by
  rcases hst with h | h <;> simp [h]

/-- Claim C2: when the batch processor fails for sequence `i` while the
role is in-turn and the two recovery queries succeed, the iteration ends
the pass with the original error, the cursor nonce overwritten by the
nonce fetched at the next block, and the cursor sequence overwritten by
the freshly fetched next delivery oracle sequence — the same sequence and
nonce are not retried within the pass. -/
theorem C2_calibration_thm (env : Env) (cfg : Config) (ch i : Nat)
    (st : AssemblerState) (p : BscRelayPackage) (ps : List BscRelayPackage)
    (e : Err) (st2 : AssemblerState) (evs : List RelayEvent) (n q : Nat)
    (hp : env.packagesByOracleSequence i = .ok (p :: ps))
    (hst : p.status = TxStatus.AllVoted ∨ p.status = TxStatus.Delivered)
    (hfail : BSCAssembler.processPkgs env (BSCAssembler.alertCheck env i p.txTime st)
      (p :: ps) ch i (BSCAssembler.alertCheck env i p.txTime st).relayerNonce true =
      (.error e, st2, evs))
    (hn : env.nonceOnNextBlock = .ok n)
    (hq : env.nextDeliveryOracleSeq = .ok q) :
    BSCAssembler.loopBody env cfg ch true i st =
      .done (.error e)
        { st2 with relayerNonce := n, inturnRelayerSequenceStatus.nextDeliverySeq := q }
        (.visit i :: evs) := by
  unfold BSCAssembler.loopBody
  rw [hp]
  dsimp only
  rw [status_check_false p hst]
  simp only [Bool.false_eq_true, if_false, Bool.not_true, Bool.false_and]
  rw [hfail]
  dsimp only
  rw [hn]
  dsimp only
  rw [hq]

/-- Claim C2, witness: over `envVotesFail` (vote store read fails) the
in-turn iteration for sequence 5 recalibrates: nonce 21 from the next
block, cursor sequence 5 from the chain, the original error returned. -/
theorem C2_calibration_witness :
    BSCAssembler.loopBody envVotesFail baseCfg 0 true 5 baseState =
      .done (.error (.external "rpc"))
        { baseState with relayerNonce := 21, inturnRelayerSequenceStatus.nextDeliverySeq := 5 }
        [.visit 5] :=
  C2_calibration_thm envVotesFail baseCfg 0 5 baseState pkgAllVoted []
    (.external "rpc") baseState [] 21 5 rfl (Or.inl rfl) rfl rfl rfl

lemma processPkgs_success_inturn (env : Env) (stA : AssemblerState) (ch i n : Nat)
    (p : BscRelayPackage) (ps : List BscRelayPackage) (v : Vote) (vs : List Vote)
    (vals : List Validator) (agg : List Nat × List Nat) (h' : String)
    (hv : env.getVotes ch i = .ok (v :: vs))
    (hval : env.queryCachedLatestValidators = .ok vals)
    (hagg : env.aggregate (v :: vs) vals = .ok agg)
    (hcl : env.claimPackages v.claimPayload agg.1 agg.2 p.txTime i n = .ok h')
    (hupd : env.updateBatchPackagesStatusAndClaimedTxHash ((p :: ps).map (·.id))
      TxStatus.Delivered h' = .ok ()) :
    BSCAssembler.processPkgs env stA (p :: ps) ch i n true =
      (.ok (), { stA with inturnRelayerSequenceStatus.nextDeliverySeq := i + 1 },
        [.claimSubmitted i n,
          .updateStatusAndClaimedTxHash ((p :: ps).map (·.id)) TxStatus.Delivered h']) := by
  unfold BSCAssembler.processPkgs
  rw [hv]
  dsimp only
  rw [hval]
  dsimp only
  rw [hagg]
  dsimp only
  rw [hcl]
  dsimp only
  simp only [Bool.not_true, Bool.false_eq_true, if_false]
  rw [hupd]

/-- Claim C4: when the batch processor succeeds for sequence `i` in-turn,
the iteration records the claim broadcast at the cursor nonce, the
transactional update setting all packages of the batch to `Delivered`
with the tx hash returned by the broadcast, sets the cursor's
next-delivery sequence to `i + 1`, increments the cursor nonce by exactly
one, and continues the loop. -/
theorem C4_success_thm (env : Env) (cfg : Config) (ch i : Nat)
    (st : AssemblerState) (p : BscRelayPackage) (ps : List BscRelayPackage)
    (v : Vote) (vs : List Vote) (vals : List Validator)
    (agg : List Nat × List Nat) (h' : String)
    (hp : env.packagesByOracleSequence i = .ok (p :: ps))
    (hst : p.status = TxStatus.AllVoted ∨ p.status = TxStatus.Delivered)
    (hv : env.getVotes ch i = .ok (v :: vs))
    (hval : env.queryCachedLatestValidators = .ok vals)
    (hagg : env.aggregate (v :: vs) vals = .ok agg)
    (hcl : env.claimPackages v.claimPayload agg.1 agg.2 p.txTime i
      (BSCAssembler.alertCheck env i p.txTime st).relayerNonce = .ok h')
    (hupd : env.updateBatchPackagesStatusAndClaimedTxHash ((p :: ps).map (·.id))
      TxStatus.Delivered h' = .ok ()) :
    BSCAssembler.loopBody env cfg ch true i st =
      .next
        { BSCAssembler.alertCheck env i p.txTime st with
          relayerNonce := (BSCAssembler.alertCheck env i p.txTime st).relayerNonce + 1,
          inturnRelayerSequenceStatus.nextDeliverySeq := i + 1 }
        [.visit i,
          .claimSubmitted i (BSCAssembler.alertCheck env i p.txTime st).relayerNonce,
          .updateStatusAndClaimedTxHash ((p :: ps).map (·.id)) TxStatus.Delivered h'] := by
  unfold BSCAssembler.loopBody
  rw [hp]
  dsimp only
  rw [status_check_false p hst]
  simp only [Bool.false_eq_true, if_false, Bool.not_true, Bool.false_and]
  rw [processPkgs_success_inturn env _ ch i _ p ps v vs vals agg h' hv hval hagg hcl hupd]

/-- Claim C4, witness: the in-turn success path at sequence 5 over
`baseEnv`: claim at nonce 11, batch set `Delivered` with hash "h", cursor
sequence 6, nonce 12. -/
theorem C4_success_witness :
    BSCAssembler.loopBody baseEnv baseCfg 0 true 5 baseState =
      .next { baseState with relayerNonce := 12, inturnRelayerSequenceStatus.nextDeliverySeq := 6 }
        [.visit 5, .claimSubmitted 5 11,
          .updateStatusAndClaimedTxHash [1] TxStatus.Delivered "h"] :=
  C4_success_thm baseEnv baseCfg 0 5 baseState pkgAllVoted [] ⟨[7]⟩ [] [⟨[9]⟩]
    ([3], [1]) "h" rfl (Or.inl rfl) rfl rfl rfl rfl rfl

/-- Claim C6: a stand-by invocation of the batch processor leaves the
assembler state unchanged (in particular the cursor) and never issues the
status-updating database write, so no package is marked `Delivered` by a
stand-by relayer; only the claimed-tx-hash update can appear. -/
theorem C6_standby_no_delivered_thm (env : Env) (st : AssemblerState)
    (pkgs : List BscRelayPackage) (ch i n : Nat) :
    (BSCAssembler.processPkgs env st pkgs ch i n false).2.1 = st ∧
    ∀ ids s h, RelayEvent.updateStatusAndClaimedTxHash ids s h ∉
      (BSCAssembler.processPkgs env st pkgs ch i n false).2.2 := by
  unfold BSCAssembler.processPkgs
  dsimp only
  repeat' split
  all_goals simp_all

/-- Claim C6, witness: the stand-by success path over `baseEnv` records
only the claim broadcast and the claimed-tx-hash update. -/
theorem C6_standby_no_delivered_witness :
    (BSCAssembler.processPkgs baseEnv baseState [pkgAllVoted] 0 5 11 false).2.1 =
      baseState ∧
    ∀ ids s h, RelayEvent.updateStatusAndClaimedTxHash ids s h ∉
      (BSCAssembler.processPkgs baseEnv baseState [pkgAllVoted] 0 5 11 false).2.2 :=
  C6_standby_no_delivered_thm baseEnv baseState [pkgAllVoted] 0 5 11

lemma establishInturnCursor_skew (env : Env) (cfg : Config) (ir : InturnRelayer)
    (st : AssemblerState)
    (hret : st.inturnRelayerSequenceStatus.hasRetrieved = false)
    (h1 : env.now - ir.intervalStart < 0)
    (hlat : 0 ≤ cfg.relayConfig.greenfieldSequenceUpdateLatency) :
    BSCAssembler.establishInturnCursor env cfg ir st = (st, .error .clockSkew) := by
  unfold BSCAssembler.establishInturnCursor
  rw [hret]
  simp only [Bool.false_eq_true, if_false]
  rw [if_pos h1,
    if_pos (show env.now - ir.intervalStart <
      cfg.relayConfig.greenfieldSequenceUpdateLatency by omega)]

lemma establishInturnCursor_grace (env : Env) (cfg : Config) (ir : InturnRelayer)
    (st : AssemblerState)
    (hret : st.inturnRelayerSequenceStatus.hasRetrieved = false)
    (h0 : 0 ≤ env.now - ir.intervalStart)
    (h1 : env.now - ir.intervalStart < cfg.relayConfig.greenfieldSequenceUpdateLatency) :
    BSCAssembler.establishInturnCursor env cfg ir st = (st, .ok none) := by
  unfold BSCAssembler.establishInturnCursor
  rw [hret]
  simp only [Bool.false_eq_true, if_false]
  rw [if_pos h1, if_neg (by omega)]

lemma establishInturnCursor_fetch (env : Env) (cfg : Config) (ir : InturnRelayer)
    (st : AssemblerState) (s0 n0 : Nat)
    (hret : st.inturnRelayerSequenceStatus.hasRetrieved = false)
    (h1 : cfg.relayConfig.greenfieldSequenceUpdateLatency ≤ env.now - ir.intervalStart)
    (hs0 : env.nextDeliveryOracleSeq = .ok s0)
    (hn0 : env.nonce = .ok n0) :
    BSCAssembler.establishInturnCursor env cfg ir st =
      ({ st with relayerNonce := n0, inturnRelayerSequenceStatus := ⟨true, s0⟩ },
        .ok (some s0)) := by
  unfold BSCAssembler.establishInturnCursor
  rw [hret]
  simp only [Bool.false_eq_true, if_false]
  rw [if_neg (by omega)]
  rw [hs0]
  dsimp only
  rw [hn0]

/-- Claim C7: on the first in-turn pass after a role flip (cursor not yet
retrieved), with `time_diff = now − relay_interval_start` and a
non-negative grace period: if `time_diff < 0` the pass fails with the
structured clock-skew error and mutates neither cursor nor nonce and
submits nothing; if `0 ≤ time_diff <` grace period the pass returns `ok`
silently with the cursor untouched (so `has_retrieved` still false) and no
submission; otherwise, when the sequence and nonce fetches succeed, cursor
establishment stores both fetched values and sets `has_retrieved`. -/
theorem C7_cursor_establishment_thm (env : Env) (cfg : Config) (bls : List Nat)
    (ch : Nat) (st : AssemblerState) (ir : InturnRelayer)
    (hir : env.inturnRelayer = .ok ir)
    (hb : bls = ir.blsPubKey)
    (hret : st.inturnRelayerSequenceStatus.hasRetrieved = false)
    (hlat : 0 ≤ cfg.relayConfig.greenfieldSequenceUpdateLatency) :
    (env.now - ir.intervalStart < 0 →
      BSCAssembler.process env cfg bls ch st = ⟨.error .clockSkew, st, []⟩) ∧
    (0 ≤ env.now - ir.intervalStart →
      env.now - ir.intervalStart < cfg.relayConfig.greenfieldSequenceUpdateLatency →
      BSCAssembler.process env cfg bls ch st = ⟨.ok (), st, []⟩) ∧
    (cfg.relayConfig.greenfieldSequenceUpdateLatency ≤ env.now - ir.intervalStart →
      ∀ s0 n0, env.nextDeliveryOracleSeq = .ok s0 → env.nonce = .ok n0 →
        BSCAssembler.establishInturnCursor env cfg ir st =
          ({ st with relayerNonce := n0, inturnRelayerSequenceStatus := ⟨true, s0⟩ },
            .ok (some s0))) := by
  have hbeq : (bls == ir.blsPubKey) = true := by simp [hb]
  refine ⟨?_, ?_, ?_⟩
  · intro h1
    unfold BSCAssembler.process
    rw [hir]
    dsimp only
    rw [hbeq]
    simp only [if_true]
    rw [establishInturnCursor_skew env cfg ir st hret h1 hlat]
  · intro h0 h1
    unfold BSCAssembler.process
    rw [hir]
    dsimp only
    rw [hbeq]
    simp only [if_true]
    rw [establishInturnCursor_grace env cfg ir st hret h0 h1]
  · intro h1 s0 n0 hs0 hn0
    exact establishInturnCursor_fetch env cfg ir st s0 n0 hret h1 hs0 hn0

/-- Claim C7, witness: at time 40 against interval start 50 the pass over
`envSkew` fails with the clock-skew error and leaves the fresh state
untouched. -/
theorem C7_cursor_establishment_witness :
    BSCAssembler.process envSkew baseCfg [1] 0 freshState =
      ⟨.error .clockSkew, freshState, []⟩ :=
  (C7_cursor_establishment_thm envSkew baseCfg [1] 0 freshState ⟨[1], 50, 200⟩
    rfl rfl rfl (by decide)).1 (by decide)

lemma le_foldl_max (l : List Nat) : ∀ a : Nat, a ≤ l.foldl max a := by
  induction l with
  | nil => intro a; exact le_refl a
  | cons b t ih => intro a; exact le_trans (le_max_left a b) (ih (max a b))

lemma mem_le_foldl_max (l : List Nat) : ∀ (a x : Nat), x ∈ l → x ≤ l.foldl max a := by
  induction l with
  | nil => intro a x hx; simp at hx
  | cons b t ih =>
    intro a x hx
    rcases List.mem_cons.mp hx with rfl | hx
    · exact le_trans (le_max_right a x) (le_foldl_max t (max a x))
    · exact ih (max a b) x hx

lemma foldl_max_mem (l : List Nat) : ∀ a : Nat, l.foldl max a ∈ l ∨ l.foldl max a = a := by
  induction l with
  | nil => intro a; right; rfl
  | cons b t ih =>
    intro a
    rw [List.foldl_cons]
    rcases ih (max a b) with h | h
    · left; exact List.mem_cons_of_mem b h
    · rcases max_choice a b with hm | hm
      · right; rw [h, hm]
      · left; rw [h, hm]; exact List.mem_cons_self b t

lemma mem_matchingSeqs (tbl : List GreenfieldRelayTransaction) (ch : Nat)
    (status : TxStatus) (q : Nat) :
    q ∈ matchingSeqs tbl ch status ↔
      ∃ t ∈ tbl, t.channelId = ch ∧ t.status = status ∧ t.sequence = q := by
  simp only [matchingSeqs, List.mem_map, List.mem_filter, Bool.and_eq_true, beq_iff_eq]
  constructor
  · rintro ⟨t, ⟨ht, hc, hsst⟩, hq⟩
    exact ⟨t, ht, hc, hsst, hq⟩
  · rintro ⟨t, ht, hc, hsst, hq⟩
    exact ⟨t, ⟨ht, hc, hsst⟩, hq⟩

/-- Claim C9, counterexample: on a table holding two rows of channel 1
and sequence 7, one `AllVoted` and one `Saved`, the query for `AllVoted`
returns 7 even though not all rows of sequence 7 have status `AllVoted`
(the spec-worded function returns -1 there).  This refutes the claim that
the returned value is the maximum sequence whose rows are all in the
given status. -/
theorem C9_counterexample :
    GreenfieldDao.GetLatestSequenceByChannelIdAndStatus tblMixed 1 .AllVoted = 7 ∧
    latestSequenceWithStatusSpec tblMixed 1 .AllVoted = -1 ∧
    ¬(∀ t ∈ tblMixed, t.channelId = 1 → t.sequence = 7 →
        t.status = TxStatus.AllVoted) := by
  refine ⟨by decide, by decide, by decide⟩

/-- Claim C9, amended: the query returns -1 exactly when no row of the
channel has the given status, and otherwise returns the maximum sequence
carried by some row of the channel with that status — a sequence counts
as soon as one of its rows has the status, even if other rows of the same
sequence do not. -/
theorem C9_amended_thm (tbl : List GreenfieldRelayTransaction) (ch : Nat)
    (status : TxStatus) :
    (GreenfieldDao.GetLatestSequenceByChannelIdAndStatus tbl ch status = -1 ↔
      ∀ t ∈ tbl, ¬(t.channelId = ch ∧ t.status = status)) ∧
    (∀ t ∈ tbl, t.channelId = ch → t.status = status →
      (t.sequence : Int) ≤ GreenfieldDao.GetLatestSequenceByChannelIdAndStatus tbl ch status) ∧
    (GreenfieldDao.GetLatestSequenceByChannelIdAndStatus tbl ch status ≠ -1 →
      ∃ t ∈ tbl, t.channelId = ch ∧ t.status = status ∧
        (t.sequence : Int) =
          GreenfieldDao.GetLatestSequenceByChannelIdAndStatus tbl ch status) := by
  cases hm : matchingSeqs tbl ch status with
  | nil =>
    have hr : GreenfieldDao.GetLatestSequenceByChannelIdAndStatus tbl ch status = -1 := by
      unfold GreenfieldDao.GetLatestSequenceByChannelIdAndStatus
      rw [hm]
    rw [hr]
    refine ⟨⟨fun _ t ht hts => ?_, fun _ => rfl⟩, fun t ht hc hsst => ?_, fun hne => absurd rfl hne⟩
    · have : t.sequence ∈ matchingSeqs tbl ch status :=
        (mem_matchingSeqs tbl ch status t.sequence).mpr ⟨t, ht, hts.1, hts.2, rfl⟩
      rw [hm] at this
      simp at this
    · exfalso
      have : t.sequence ∈ matchingSeqs tbl ch status :=
        (mem_matchingSeqs tbl ch status t.sequence).mpr ⟨t, ht, hc, hsst, rfl⟩
      rw [hm] at this
      simp at this
  | cons s rest =>
    have hr : GreenfieldDao.GetLatestSequenceByChannelIdAndStatus tbl ch status =
        (((s :: rest).foldl max 0 : Nat) : Int) := by
      unfold GreenfieldDao.GetLatestSequenceByChannelIdAndStatus
      rw [hm]
    rw [hr]
    have hsmem : s ∈ matchingSeqs tbl ch status := by rw [hm]; exact List.mem_cons_self s rest
    obtain ⟨t0, ht0, hc0, hs0, hq0⟩ := (mem_matchingSeqs tbl ch status s).mp hsmem
    refine ⟨⟨fun habs => ?_, fun hall => ?_⟩, fun t ht hc hsst => ?_, fun _ => ?_⟩
    · exfalso; omega
    · exact absurd ⟨hc0, hs0⟩ (hall t0 ht0)
    · have hmem : t.sequence ∈ matchingSeqs tbl ch status :=
        (mem_matchingSeqs tbl ch status t.sequence).mpr ⟨t, ht, hc, hsst, rfl⟩
      rw [hm] at hmem
      exact_mod_cast mem_le_foldl_max (s :: rest) 0 t.sequence hmem
    · rcases foldl_max_mem (s :: rest) 0 with hfm | hfm
      · have : (s :: rest).foldl max 0 ∈ matchingSeqs tbl ch status := by rw [hm]; exact hfm
        obtain ⟨t1, ht1, hc1, hs1, hq1⟩ :=
          (mem_matchingSeqs tbl ch status ((s :: rest).foldl max 0)).mp this
        exact ⟨t1, ht1, hc1, hs1, by exact_mod_cast hq1⟩
      · have hs_le : s ≤ (s :: rest).foldl max 0 :=
          mem_le_foldl_max (s :: rest) 0 s (List.mem_cons_self s rest)
        have hse : s = (s :: rest).foldl max 0 := by omega
        exact ⟨t0, ht0, hc0, hs0, by rw [hq0]; exact_mod_cast hse⟩

/-- Claim C9, witness: the amended characterisation applied to the mixed
table: the result 7 is witnessed by the `AllVoted` row of sequence 7, and
every matching row is bounded by it. -/
theorem C9_amended_witness :
    GreenfieldDao.GetLatestSequenceByChannelIdAndStatus tblMixed 1 .AllVoted ≠ -1 ∧
    ∃ t ∈ tblMixed, t.channelId = 1 ∧ t.status = TxStatus.AllVoted ∧
      (t.sequence : Int) =
        GreenfieldDao.GetLatestSequenceByChannelIdAndStatus tblMixed 1 .AllVoted :=
  ⟨by decide, (C9_amended_thm tblMixed 1 .AllVoted).2.2 (by decide)⟩

/-- Claim C10: `QueryCachedLatestValidators` never writes the cached
validators field (the returned executor state equals the input state in
every case, so an empty cache stays empty and each later call re-fetches);
with an empty cache the returned value is exactly the synchronous fetch
result; the cache field is written only by a tick of the periodic refresh
loop, which stores the fetched list on success. -/
theorem C10_validator_cache_thm (env : ExecEnv) (e : GreenfieldExecutorState) :
    (GreenfieldExecutor.QueryCachedLatestValidators env e).2 = e ∧
    (e.validators = [] →
      (GreenfieldExecutor.QueryCachedLatestValidators env e).1 = env.queryLatestValidators) ∧
    ∀ vs, env.queryLatestValidators = .ok vs →
      (GreenfieldExecutor.UpdateCachedLatestValidatorsTick env e).validators = vs := by
  refine ⟨?_, ?_, ?_⟩
  · unfold GreenfieldExecutor.QueryCachedLatestValidators
    split
    · rfl
    · cases h : env.queryLatestValidators <;> rfl
  · intro hemp
    unfold GreenfieldExecutor.QueryCachedLatestValidators
    rw [hemp]
    cases h : env.queryLatestValidators with
    | error err => simp [h]
    | ok vs => simp [h]
  · intro vs h
    unfold GreenfieldExecutor.UpdateCachedLatestValidatorsTick
    rw [h]

/-- Claim C10, witness: with an empty cache and a successful RPC, the
query returns the fetched list while the cache stays empty, and the
refresh tick is what fills it. -/
theorem C10_validator_cache_witness :
    (GreenfieldExecutor.QueryCachedLatestValidators baseExecEnv emptyCacheState).2 =
      emptyCacheState ∧
    (GreenfieldExecutor.QueryCachedLatestValidators baseExecEnv emptyCacheState).1 =
      baseExecEnv.queryLatestValidators :=
  ⟨(C10_validator_cache_thm baseExecEnv emptyCacheState).1,
    (C10_validator_cache_thm baseExecEnv emptyCacheState).2.1 rfl⟩
